import Mathlib

/-!
Shallow embedding of the record-extraction and diff core of
`scripts/monitor.py` (sanctions-list monitor), together with proofs of the
specification claims about it.

Cells of the spreadsheet are modelled as `Option String` (a `None` cell or
its already-stringified value), rows as lists of cells, and records
(Python dicts of string fields) as insertion-ordered association lists with
unique keys, manipulated only through dict-style operations.
-/

namespace SanctionsMonitor

abbrev Row := List (Option String)

abbrev Entry := List (String × String)

/-- Embedding of Python `str.strip()` on the character list of a string. -/
def trimChars (l : List Char) : List Char :=
  ((l.dropWhile Char.isWhitespace).reverse.dropWhile Char.isWhitespace).reverse

/-- Embedding of Python `str.strip()`. -/
def strTrim (s : String) : String :=
  String.mk (trimChars s.data)

/-- Helper for `collapseWs`: the flag records whether the previous character
belonged to a whitespace run that has already emitted its single space. -/
def collapseWsAux : Bool → List Char → List Char
  | _, [] => []
  | prevWs, c :: rest =>
    if c.isWhitespace then
      if prevWs then collapseWsAux true rest
      else ' ' :: collapseWsAux true rest
    else c :: collapseWsAux false rest

/-- Embedding of `re.sub(r"\s+", " ", s)`: every maximal run of whitespace
characters is replaced by a single space. -/
def collapseWs (l : List Char) : List Char :=
  collapseWsAux false l

/-- Header-cell normalization (monitor.py lines 110-117): `None` becomes the
empty label; otherwise `str(h).strip().lower()` followed by collapsing
internal whitespace runs. -/
def normHeader (c : Option String) : String :=
  match c with
  | none => ""
  | some s => String.mk (collapseWs ((strTrim s).data.map Char.toLower))

/-- A cell is blank when it is `None` or trims to the empty string
(the test used on lines 102 and 123 of monitor.py). -/
def cellBlank (c : Option String) : Bool :=
  match c with
  | none => true
  | some s => decide (strTrim s = "")

/-- `str(val).strip() if val is not None else ""` (monitor.py line 130). -/
def cellValue (c : Option String) : String :=
  match c with
  | none => ""
  | some s => strTrim s

/-- A data row is skipped when every cell is blank (monitor.py line 123). -/
def rowBlank (row : Row) : Bool :=
  row.all cellBlank

/-- Number of non-blank cells in a row (monitor.py line 102). -/
def nonEmptyCells (row : Row) : Nat :=
  (row.filter (fun c => !cellBlank c)).length

/-- The header-row test: at least 3 non-empty cells (monitor.py line 103). -/
def headerRowPred (row : Row) : Bool :=
  decide (3 ≤ nonEmptyCells row)

/-- The header-locating loop of monitor.py lines 100-105, carrying the
current row index; returns 0 when no row qualifies. -/
def headerIdxFrom : List Row → Nat → Nat
  | [], _ => 0
  | r :: rs, i => if headerRowPred r then i else headerIdxFrom rs (i + 1)

/-- Index of the header row: first row with at least 3 non-empty cells,
defaulting to 0. -/
def headerIdx (rows : List Row) : Nat :=
  headerIdxFrom rows 0

/-- The index of the first element satisfying `p`, if any (reference
formulation used to characterize `headerIdx`). -/
def firstIdxWith (p : Row → Bool) : List Row → Option Nat
  | [] => none
  | r :: rs => if p r then some 0 else (firstIdxWith p rs).map (· + 1)

/-- Dict lookup on an association list (Python `d.get(k)` / `d[k]`). -/
def dGet {β : Type} (m : List (String × β)) (k : String) : Option β :=
  match m with
  | [] => none
  | (k', v) :: rest => if k' = k then some v else dGet rest k

/-- Dict assignment `d[k] = v`: updates the value in place when the key is
present (keeping its position, as Python dicts do), else appends. -/
def dInsert {β : Type} (m : List (String × β)) (k : String) (v : β) :
    List (String × β) :=
  match m with
  | [] => [(k, v)]
  | (k', v') :: rest =>
    if k' = k then (k', v) :: rest else (k', v') :: dInsert rest k v

/-- `entry.get(f, "")`-style access used throughout the diff engine. -/
def fieldVal (e : Entry) (f : String) : String :=
  (dGet e f).getD ""

/-- Building one record from headers and a data row (monitor.py lines
126-130): columns with an in-range, non-empty header label contribute
`entry[label] = str(val).strip() if val is not None else ""`. -/
def buildEntry (headers : List String) (row : Row) : Entry :=
  row.enum.foldl
    (fun e p =>
      match headers.get? p.1 with
      | some h => if h = "" then e else dInsert e h (cellValue p.2)
      | none => e)
    []

/-- `pat in l` for character lists (Python substring containment). -/
def listHasSub : List Char → List Char → Bool
  | [], pat => pat.isEmpty
  | c :: t, pat => pat.isPrefixOf (c :: t) || listHasSub t pat

/-- Python `term in key` on strings. -/
def strHasSub (s pat : String) : Bool :=
  listHasSub s.data pat.data

/-- The sequence/number column substrings (monitor.py line 136). -/
def numTerms : List String := ["lp", "nr", "numer"]

/-- The name column substrings exactly as written on monitor.py line 138;
the second element is the mojibake byte sequence literally present in the
source file (a double-encoded "imię"). -/
def nameTerms : List String := ["nazwa", "imiƒô", "imie", "nazwisko", "name"]

def isNumLabel (k : String) : Bool :=
  numTerms.any (fun t => strHasSub k t)

def isNameLabel (k : String) : Bool :=
  nameTerms.any (fun t => strHasSub k t)

/-- Codepoint-lexicographic order on character lists (the order Python uses
to compare strings). -/
def charListLt : List Char → List Char → Bool
  | _, [] => false
  | [], _ :: _ => true
  | a :: as, b :: bs =>
    if a.toNat < b.toNat then true
    else if b.toNat < a.toNat then false
    else charListLt as bs

/-- Python `a < b` on strings. -/
def strLt (a b : String) : Bool :=
  charListLt a.data b.data

/-- Insertion sort step for strings (codepoint-lexicographic, as Python
`sorted` on `str`). -/
def insSorted (x : String) : List String → List String
  | [] => [x]
  | y :: ys => if strLt y x then y :: insSorted x ys else x :: y :: ys

/-- `sorted(...)` for lists of strings. -/
def sortStr : List String → List String
  | [] => []
  | x :: xs => insSorted x (sortStr xs)

/-- One step of the `id_parts` loop (monitor.py lines 135-139): a label
containing a number substring has its value inserted at the front,
otherwise a label containing a name substring has its value appended. -/
def idPartsStep (e : Entry) (parts : List String) (k : String) : List String :=
  if isNumLabel k then fieldVal e k :: parts
  else if isNameLabel k then parts ++ [fieldVal e k]
  else parts

/-- `id_parts` after the scan over the sorted field labels. -/
def idParts (e : Entry) : List String :=
  (sortStr (e.map Prod.fst)).foldl (idPartsStep e) []

/-- Fallback key parts: the first 3 non-empty field values in insertion
order (monitor.py line 143). -/
def fallbackParts (e : Entry) : List String :=
  ((e.map Prod.snd).filter (fun v => decide (v ≠ ""))).take 3

/-- `"|".join(parts)`. -/
def joinPipe : List String → String
  | [] => ""
  | [s] => s
  | s :: rest => s ++ "|" ++ joinPipe rest

/-- `.strip("|")`: remove leading and trailing pipe characters. -/
def stripPipes (s : String) : String :=
  String.mk (((s.data.dropWhile (fun c => c == '|')).reverse.dropWhile
    (fun c => c == '|')).reverse)

/-- The identity key computed for one record (monitor.py lines 134-145). -/
def entryIdKey (e : Entry) : String :=
  stripPipes (joinPipe (if idParts e = [] then fallbackParts e else idParts e))

/-- Processing of one data row (monitor.py lines 121-148): skip blank rows,
build the field map, attach `_id`, and keep the record only when the key is
non-empty. -/
def mkEntry (headers : List String) (row : Row) : Option Entry :=
  if rowBlank row then none
  else
    let e := buildEntry headers row
    let key := entryIdKey e
    if key = "" then none else some (dInsert e "_id" key)

/-- The normalized header labels of a document. -/
def headersOf (rows : List Row) : List String :=
  (rows.getD (headerIdx rows) []).map normHeader

/-- The data rows: everything after the header row. -/
def dataRowsOf (rows : List Row) : List Row :=
  rows.drop (headerIdx rows + 1)

/-- The row-level core of `parse_xlsx` (monitor.py lines 95-151): locate the
header, normalize it, and extract the surviving records in row order. -/
def parse_xlsx (rows : List Row) : List Entry :=
  match rows with
  | [] => []
  | _ :: _ => (dataRowsOf rows).filterMap (mkEntry (headersOf rows))

/-- One step of the key→record map comprehension of monitor.py lines
159-160: entries whose `_id` is absent or empty are skipped, later entries
overwrite earlier ones with the same key. -/
def buildStep (m : List (String × Entry)) (e : Entry) : List (String × Entry) :=
  match dGet e "_id" with
  | some s => if s = "" then m else dInsert m s e
  | none => m

/-- `{e["_id"]: e for e in entries if e.get("_id")}`. -/
def buildMap (entries : List Entry) : List (String × Entry) :=
  entries.foldl buildStep []

/-- `{k: v for k, v in e.items() if k != "_id"}`. -/
def stripId (e : Entry) : Entry :=
  e.filter (fun p => decide (p.1 ≠ "_id"))

/-- Python dict equality on the modelled records: the two association lists
agree, as finite maps, on every key of either. -/
def entryEqv (a b : Entry) : Bool :=
  (a.map Prod.fst ++ b.map Prod.fst).all (fun k => decide (dGet a k = dGet b k))

/-- Rebuilding a reported record: the payload without `_id`, with `_id`
re-attached (monitor.py lines 167-168 and 173-174). -/
def attachId (k : String) (e : Entry) : Entry :=
  dInsert (stripId e) "_id" k

/-- One `modified` report: the identity key plus the change list of
(field, old value, new value) triples. -/
structure ModEntry where
  id : String
  changes : List (String × String × String)
deriving DecidableEq, Repr

/-- The result of `compute_diff`. -/
structure DiffResult where
  added : List Entry
  removed : List Entry
  modified : List ModEntry
deriving DecidableEq, Repr

/-- The change list for one key present in both maps (monitor.py lines
182-188): over the union of the two field-name sets, every field whose old
value (default `""`) differs from its new value (default `""`). -/
def changesFor (o n : Entry) : List (String × String × String) :=
  (List.dedup (o.map Prod.fst ++ n.map Prod.fst)).filterMap (fun f =>
    if fieldVal o f = fieldVal n f then none
    else some (f, fieldVal o f, fieldVal n f))

/-- Reconstruction of one `added`/`removed` report from the side's map. -/
def reportFor (m : List (String × Entry)) (k : String) : Option Entry :=
  (dGet m k).map (attachId k)

/-- The per-key body of the `modified` loop (monitor.py lines 178-189). -/
def modFor (om nm : List (String × Entry)) (k : String) : Option ModEntry :=
  match dGet om k, dGet nm k with
  | some oe, some ne =>
    if entryEqv (stripId oe) (stripId ne) then none
    else some ⟨k, changesFor (stripId oe) (stripId ne)⟩
  | _, _ => none

/-- The body of `compute_diff` (monitor.py lines 162-195) expressed on the
two key→record maps. -/
def diffMaps (om nm : List (String × Entry)) : DiffResult :=
  { added := (sortStr ((nm.map Prod.fst).filter
        (fun k => decide (¬ k ∈ om.map Prod.fst)))).filterMap (reportFor nm)
    removed := (sortStr ((om.map Prod.fst).filter
        (fun k => decide (¬ k ∈ nm.map Prod.fst)))).filterMap (reportFor om)
    modified := (sortStr ((om.map Prod.fst).filter
        (fun k => decide (k ∈ nm.map Prod.fst)))).filterMap (modFor om nm) }

/-- `compute_diff` (monitor.py lines 154-195). -/
def compute_diff (old_entries new_entries : List Entry) : DiffResult :=
  diffMaps (buildMap old_entries) (buildMap new_entries)

/-- Modelled from the claim's wording for C1: the four name-denoting
substrings it enumerates — "nazwa", "imie", "nazwisko", "name". -/
def claimNameTerms : List String := ["nazwa", "imie", "nazwisko", "name"]

def isClaimNameLabel (k : String) : Bool :=
  claimNameTerms.any (fun t => strHasSub k t)

/-- Modelled from the claim's wording for C1: the scan over the sorted
labels using exactly the enumerated name substrings. -/
def claimIdPartsStep (e : Entry) (parts : List String) (k : String) :
    List String :=
  if isNumLabel k then fieldVal e k :: parts
  else if isClaimNameLabel k then parts ++ [fieldVal e k]
  else parts

def claimIdParts (e : Entry) : List String :=
  (sortStr (e.map Prod.fst)).foldl (claimIdPartsStep e) []

/-- Modelled from the claim's wording for C1: the identity key prescribed
by the claim, with its literal list of name-denoting substrings. -/
def claimIdentityKey (e : Entry) : String :=
  stripPipes (joinPipe
    (if claimIdParts e = [] then fallbackParts e else claimIdParts e))

/-- The key parts in spec form: the values of the number-like labels in
reverse lexicographic label order, followed by the values of the remaining
name-like labels in lexicographic label order. -/
def specKeyParts (e : Entry) : List String :=
  (((sortStr (e.map Prod.fst)).filter isNumLabel).map (fieldVal e)).reverse ++
    ((sortStr (e.map Prod.fst)).filter
      (fun k => !isNumLabel k && isNameLabel k)).map (fieldVal e)

/-- The identity key in spec form, over the source's full substring lists
(including the corrupted literal "imiƒô"). -/
def specIdentityKey (e : Entry) : String :=
  stripPipes (joinPipe
    (if specKeyParts e = [] then fallbackParts e else specKeyParts e))

/-- `a` when it is `some`, otherwise `b`. -/
def optOr {α : Type} (a b : Option α) : Option α :=
  match a with
  | some x => some x
  | none => b

/-- The `_id` value of a record, defaulting to the empty string. -/
def entryId (e : Entry) : String :=
  fieldVal e "_id"

/-- The identity key the extractor would assign to one data row, when the
row survives the discard rules. -/
def rowKey (headers : List String) (row : Row) : Option String :=
  (mkEntry headers row).map entryId

/-- The identity keys of the extracted records, in output order. -/
def recordKeys (rows : List Row) : List String :=
  (parse_xlsx rows).map entryId

/-- The last record in input order whose `_id` field equals `k`. -/
def lastWithKey (entries : List Entry) (k : String) : Option Entry :=
  (entries.filter (fun e => decide (dGet e "_id" = some k))).getLast?

/-! ### Concrete documents and record sets used as test inputs -/

/-- The two-column example document of spec scenario 1. -/
def c1Rows : List Row :=
  [[some "lp", some "nazwa"], [some "1", some "Jan Kowalski"],
    [some "2", some "Anna Nowak"]]

def c1Rec1 : Entry :=
  [("lp", "1"), ("nazwa", "Jan Kowalski"), ("_id", "1|Jan Kowalski")]

def c1Rec2 : Entry :=
  [("lp", "2"), ("nazwa", "Anna Nowak"), ("_id", "2|Anna Nowak")]

/-- A document whose middle header is the literal corrupted byte sequence
"imiƒô" appearing on monitor.py line 138. -/
def mojRows : List Row :=
  [[some "nr", some "imiƒô", some "adres"], [some "7", some "Jan", some "X"]]

def mojEntry : Entry :=
  [("nr", "7"), ("imiƒô", "Jan"), ("adres", "X")]

/-- A document whose only data row is a footnote row (spec scenario 5). -/
def footRows : List Row :=
  [[some "a", some "b", some "c"], [some "[3] see footnote", none, none]]

/-- A document with two identical data rows. -/
def dupRows : List Row :=
  [[some "lp", some "nazwa", some "x"], [some "1", some "A", some "y"],
    [some "1", some "A", some "y"]]

/-- A document with a title row before the header row. -/
def hdrRows : List Row :=
  [[some "t", none, none], [some "a", some "b", some "c"],
    [some "x", some "y", some "z"]]

/-- Two records sharing the same identity key. -/
def dupIdEntries : List Entry :=
  [[("_id", "k"), ("v", "1")], [("_id", "k"), ("v", "2")]]

/-- A record with no `_id` field at all. -/
def noIdEntry : Entry := [("x", "1")]

def exOldRec : Entry := [("_id", "1|X"), ("status", "active")]

def exNewRec : Entry := [("_id", "1|X"), ("status", "removed")]

/-! ### Association-list (dict) lemmas -/

theorem dGet_dInsert_self {β : Type} (m : List (String × β)) (k : String)
    (v : β) : dGet (dInsert m k v) k = some v := by
  induction m with
  | nil => simp [dInsert, dGet]
  | cons p rest ih =>
    by_cases h : p.1 = k
    · simp [dInsert, dGet, h]
    · simp [dInsert, dGet, h, ih]

theorem dGet_dInsert_ne {β : Type} (m : List (String × β)) {k k' : String}
    (v : β) (h : k' ≠ k) : dGet (dInsert m k' v) k = dGet m k := by
  induction m with
  | nil => simp [dInsert, dGet, h]
  | cons p rest ih =>
    by_cases hp : p.1 = k'
    · simp [dInsert, dGet, hp, h]
    · simp only [dInsert, hp, if_false, dGet]
      by_cases hk : p.1 = k
      · simp [hk]
      · simp [hk, ih]

theorem mem_keys_of_dGet_some {β : Type} {m : List (String × β)} {k : String}
    {v : β} (h : dGet m k = some v) : k ∈ m.map Prod.fst := by
  induction m with
  | nil => simp [dGet] at h
  | cons p rest ih =>
    by_cases hp : p.1 = k
    · simp [hp]
    · simp only [dGet, hp, if_false] at h
      simpa using Or.inr (ih h)

theorem exists_dGet_of_mem_keys {β : Type} {m : List (String × β)}
    {k : String} (h : k ∈ m.map Prod.fst) : ∃ v, dGet m k = some v := by
  induction m with
  | nil => simp at h
  | cons p rest ih =>
    by_cases hp : p.1 = k
    · exact ⟨p.2, by simp [dGet, hp]⟩
    · simp only [List.map_cons, List.mem_cons] at h
      rcases h with h | h
      · exact absurd h.symm hp
      · simpa [dGet, hp] using ih h

theorem dGet_eq_none_of_not_mem_keys {β : Type} {m : List (String × β)}
    {k : String} (h : ¬ k ∈ m.map Prod.fst) : dGet m k = none := by
  cases hg : dGet m k with
  | none => rfl
  | some v => exact absurd (mem_keys_of_dGet_some hg) h

theorem entryEqv_refl (a : Entry) : entryEqv a a = true := by
  simp [entryEqv]

/-! ### Sorting lemmas -/

theorem mem_insSorted {x a : String} {l : List String} :
    a ∈ insSorted x l ↔ a = x ∨ a ∈ l := by
  induction l with
  | nil => simp [insSorted]
  | cons y ys ih =>
    cases h : strLt y x with
    | true =>
      simp only [insSorted, h, if_true, List.mem_cons, ih]
      tauto
    | false =>
      simp only [insSorted, h, Bool.false_eq_true, if_false, List.mem_cons]

theorem mem_sortStr {a : String} {l : List String} :
    a ∈ sortStr l ↔ a ∈ l := by
  induction l with
  | nil => simp [sortStr]
  | cons x xs ih =>
    simp only [sortStr, mem_insSorted, List.mem_cons, ih]

/-! ### Identity-key synthesis lemmas -/

theorem foldl_idPartsStep (e : Entry) (ks : List String) :
    ∀ acc : List String,
      ks.foldl (idPartsStep e) acc =
        ((ks.filter isNumLabel).map (fieldVal e)).reverse ++ acc ++
          (ks.filter (fun k => !isNumLabel k && isNameLabel k)).map
            (fieldVal e) := by
  induction ks with
  | nil => intro acc; simp
  | cons k ks ih =>
    intro acc
    rw [List.foldl_cons]
    cases hn : isNumLabel k with
    | true =>
      rw [List.filter_cons_of_pos hn, List.filter_cons_of_neg (by simp [hn])]
      rw [ih (idPartsStep e acc k)]
      simp [idPartsStep, hn, List.append_assoc]
    | false =>
      rw [List.filter_cons_of_neg (by simp [hn])]
      rw [ih (idPartsStep e acc k)]
      cases hm : isNameLabel k with
      | true =>
        rw [List.filter_cons_of_pos (by simp [hn, hm])]
        simp [idPartsStep, hn, hm, List.append_assoc]
      | false =>
        rw [List.filter_cons_of_neg (by simp [hn, hm])]
        simp [idPartsStep, hn, hm]

theorem idParts_eq_specKeyParts (e : Entry) : idParts e = specKeyParts e := by
  unfold idParts specKeyParts
  rw [foldl_idPartsStep]
  simp

/-! ### Header-locator lemmas -/

theorem headerIdxFrom_eq (rows : List Row) :
    ∀ i0 : Nat,
      headerIdxFrom rows i0 =
        match firstIdxWith headerRowPred rows with
        | some j => i0 + j
        | none => 0 := by
  induction rows with
  | nil => intro i0; simp [headerIdxFrom, firstIdxWith]
  | cons r rs ih =>
    intro i0
    cases h : headerRowPred r with
    | true => simp [headerIdxFrom, firstIdxWith, h]
    | false =>
      simp only [headerIdxFrom, firstIdxWith, h, Bool.false_eq_true, if_false]
      rw [ih (i0 + 1)]
      cases firstIdxWith headerRowPred rs with
      | none => simp
      | some j =>
        show i0 + 1 + j = i0 + (j + 1)
        omega

theorem firstIdxWith_spec (rows : List Row) :
    ∀ i : Nat, firstIdxWith headerRowPred rows = some i →
      i < rows.length ∧ headerRowPred (rows.getD i []) = true ∧
        ∀ j, j < i → headerRowPred (rows.getD j []) = false := by
  induction rows with
  | nil => intro i h; simp [firstIdxWith] at h
  | cons r rs ih =>
    intro i h
    cases hr : headerRowPred r with
    | true =>
      simp only [firstIdxWith, hr, if_true, Option.some.injEq] at h
      subst h
      exact ⟨Nat.succ_pos _, hr, fun j hj => absurd hj (Nat.not_lt_zero _)⟩
    | false =>
      simp only [firstIdxWith, hr, Bool.false_eq_true, if_false] at h
      cases hrec : firstIdxWith headerRowPred rs with
      | none => rw [hrec] at h; simp at h
      | some i' =>
        rw [hrec] at h
        have hmi : Option.map (fun x => x + 1) (some i') = some (i' + 1) := rfl
        rw [hmi] at h
        cases h
        obtain ⟨h1, h2, h3⟩ := ih i' hrec
        refine ⟨Nat.succ_lt_succ h1, ?_, ?_⟩
        · rw [List.getD_cons_succ]
          exact h2
        · intro j hj
          cases j with
          | zero => exact hr
          | succ j' =>
            rw [List.getD_cons_succ]
            exact h3 j' (Nat.lt_of_succ_lt_succ hj)

/-! ### Last-writer-wins lemmas for the key→record map -/

theorem getLast?_cons_optOr {α : Type} (a : α) (l : List α) :
    (a :: l).getLast? = optOr l.getLast? (some a) := by
  induction l generalizing a with
  | nil => simp [optOr]
  | cons b l ih =>
    rw [List.getLast?_cons_cons, ih b]
    cases hl : l.getLast? <;> simp [optOr, ih b, hl]

theorem dGet_foldl_buildStep {k : String} (hk : k ≠ "") (es : List Entry) :
    ∀ m : List (String × Entry),
      dGet (es.foldl buildStep m) k =
        optOr ((es.filter (fun e => decide (dGet e "_id" = some k))).getLast?)
          (dGet m k) := by
  induction es with
  | nil => intro m; simp [optOr]
  | cons e es ih =>
    intro m
    rw [List.foldl_cons, ih (buildStep m e)]
    by_cases hpe : dGet e "_id" = some k
    · rw [List.filter_cons_of_pos (by simpa using hpe)]
      rw [getLast?_cons_optOr]
      have hb : buildStep m e = dInsert m k e := by
        simp [buildStep, hpe, hk]
      rw [hb, dGet_dInsert_self]
      cases (es.filter (fun e => decide (dGet e "_id" = some k))).getLast? <;>
        simp [optOr]
    · rw [List.filter_cons_of_neg (by simpa using hpe)]
      have hb : dGet (buildStep m e) k = dGet m k := by
        cases hid : dGet e "_id" with
        | none => simp [buildStep, hid]
        | some s =>
          by_cases hs : s = ""
          · simp [buildStep, hid, hs]
          · have hsk : s ≠ k := fun hcontra => hpe (by rw [hid, hcontra])
            simp [buildStep, hid, hs, dGet_dInsert_ne _ _ hsk]
      rw [hb]

/-! ### Uniqueness transfer lemma -/

theorem nodup_filterMap_of_pairwise {α β : Type} (f : α → Option β)
    (l : List α)
    (h : List.Pairwise (fun x y => f x = none ∨ f x ≠ f y) l) :
    (l.filterMap f).Nodup := by
  induction l with
  | nil => simp
  | cons a l ih =>
    rw [List.pairwise_cons] at h
    obtain ⟨ha, hl⟩ := h
    cases hfa : f a with
    | none => simpa [List.filterMap_cons, hfa] using ih hl
    | some c =>
      rw [List.filterMap_cons_some hfa]
      refine List.Nodup.cons ?_ (ih hl)
      intro hc
      obtain ⟨b, hb, hfb⟩ := List.mem_filterMap.mp hc
      rcases ha b hb with hnone | hne
      · rw [hfa] at hnone; exact Option.noConfusion hnone
      · exact hne (by rw [hfa, hfb])

theorem recordKeys_eq (rows : List Row) :
    recordKeys rows = (dataRowsOf rows).filterMap (rowKey (headersOf rows)) := by
  cases rows with
  | nil => rfl
  | cons r rs =>
    simp only [recordKeys, parse_xlsx, List.map_filterMap]
    rfl

/-! ### Unfolding equations for the three diff components -/

theorem compute_diff_added (o n : List Entry) :
    (compute_diff o n).added =
      (sortStr (((buildMap n).map Prod.fst).filter
        (fun k => decide (¬ k ∈ (buildMap o).map Prod.fst)))).filterMap
          (reportFor (buildMap n)) := rfl

theorem compute_diff_removed (o n : List Entry) :
    (compute_diff o n).removed =
      (sortStr (((buildMap o).map Prod.fst).filter
        (fun k => decide (¬ k ∈ (buildMap n).map Prod.fst)))).filterMap
          (reportFor (buildMap o)) := rfl

theorem compute_diff_modified (o n : List Entry) :
    (compute_diff o n).modified =
      (sortStr (((buildMap o).map Prod.fst).filter
        (fun k => decide (k ∈ (buildMap n).map Prod.fst)))).filterMap
          (modFor (buildMap o) (buildMap n)) := rfl

/-! ### The claims -/

/-- Claim C1, amended: the extractor's identity key follows the claimed
recipe — scan the populated labels in lexicographic order, prepend values
of labels containing a number substring, append values of labels containing
a name substring, fall back to the first 3 non-empty values, join with
pipes and strip outer pipes — provided the name-substring list is the one
literally present in the source, which also contains the corrupted literal
"imiƒô"; and the two-row example document yields exactly the two records
with identity keys "1|Jan Kowalski" and "2|Anna Nowak". -/
theorem identity_key_matches_spec_recipe :
    (∀ e : Entry, entryIdKey e = specIdentityKey e) ∧
    parse_xlsx c1Rows = [c1Rec1, c1Rec2] := by
  constructor
  · intro e
    unfold entryIdKey specIdentityKey
    rw [idParts_eq_specKeyParts]
  · decide

/-- Claim C1, counterexample to the literal claim: on a header containing
the corrupted literal "imiƒô" the extractor appends the column's value to
the key (computing "7|Jan"), while the claim's recipe — whose name
substrings are only "nazwa", "imie", "nazwisko", "name" — computes "7". -/
theorem identity_key_claim_recipe_counterexample :
    parse_xlsx mojRows = [mojEntry ++ [("_id", "7|Jan")]] ∧
    claimIdentityKey mojEntry = "7" ∧ ("7|Jan" : String) ≠ "7" := by
  decide

/-- Claim C2: contrary to the claim, the extractor has no footnote filter;
a row whose first populated value is "[3] see footnote" is retained, with
that value as its identity key. -/
theorem footnote_row_retained :
    parse_xlsx footRows =
      [[("a", "[3] see footnote"), ("b", ""), ("c", ""),
        ("_id", "[3] see footnote")]] := by
  decide

/-- Claim C3, counterexample to the literal claim: two identical data rows
produce two records with the same identity key "1|A". -/
theorem duplicate_keys_counterexample :
    recordKeys dupRows = ["1|A", "1|A"] ∧ ¬ (recordKeys dupRows).Nodup := by
  decide

/-- Claim C3, amended: the extractor performs no deduplication, but when
any two data rows are assigned distinct (or no) identity keys, the
extracted record list contains no duplicate identity key. -/
theorem record_keys_nodup_of_distinct_row_keys (rows : List Row)
    (h : List.Pairwise (fun r1 r2 => rowKey (headersOf rows) r1 = none ∨
        rowKey (headersOf rows) r1 ≠ rowKey (headersOf rows) r2)
      (dataRowsOf rows)) :
    (recordKeys rows).Nodup := by
  rw [recordKeys_eq]
  exact nodup_filterMap_of_pairwise _ _ h

/-- Witness for the amended claim C3 at the two-row example document. -/
theorem record_keys_nodup_witness :
    List.Pairwise (fun r1 r2 => rowKey (headersOf c1Rows) r1 = none ∨
        rowKey (headersOf c1Rows) r1 ≠ rowKey (headersOf c1Rows) r2)
      (dataRowsOf c1Rows) ∧
    (recordKeys c1Rows).Nodup := by
  have hp : List.Pairwise (fun r1 r2 => rowKey (headersOf c1Rows) r1 = none ∨
      rowKey (headersOf c1Rows) r1 ≠ rowKey (headersOf c1Rows) r2)
      (dataRowsOf c1Rows) := by decide
  exact ⟨hp, record_keys_nodup_of_distinct_row_keys c1Rows hp⟩

/-- Claim C4: for a key present in both maps whose stripped field maps
differ, the modified report for that key records exactly the fields, over
the union of the two field-name sets, whose old value (default "") differs
from the new value (default ""), together with those values. -/
theorem modified_changes_exact (A B : List Entry) (k : String) (oe ne : Entry)
    (ho : dGet (buildMap A) k = some oe)
    (hn : dGet (buildMap B) k = some ne)
    (hd : entryEqv (stripId oe) (stripId ne) = false) :
    ∃ ch : List (String × String × String),
      ModEntry.mk k ch ∈ (compute_diff A B).modified ∧
      ∀ f ov nv : String,
        ((f, ov, nv) ∈ ch ↔
          ov = fieldVal (stripId oe) f ∧ nv = fieldVal (stripId ne) f ∧
            fieldVal (stripId oe) f ≠ fieldVal (stripId ne) f) := by
  refine ⟨changesFor (stripId oe) (stripId ne), ?_, ?_⟩
  · have hkA : k ∈ (buildMap A).map Prod.fst := mem_keys_of_dGet_some ho
    have hkB : k ∈ (buildMap B).map Prod.fst := mem_keys_of_dGet_some hn
    have hmem : k ∈ sortStr (((buildMap A).map Prod.fst).filter
        (fun k => decide (k ∈ (buildMap B).map Prod.fst))) :=
      mem_sortStr.mpr (List.mem_filter.mpr ⟨hkA, by simpa using hkB⟩)
    have hg : modFor (buildMap A) (buildMap B) k =
        some ⟨k, changesFor (stripId oe) (stripId ne)⟩ := by
      simp [modFor, ho, hn, hd]
    rw [compute_diff_modified]
    exact List.mem_filterMap.mpr ⟨k, hmem, hg⟩
  · intro f ov nv
    constructor
    · intro hin
      simp only [changesFor] at hin
      obtain ⟨f2, _, hsome⟩ := List.mem_filterMap.mp hin
      by_cases heq : fieldVal (stripId oe) f2 = fieldVal (stripId ne) f2
      · rw [if_pos heq] at hsome
        exact Option.noConfusion hsome
      · rw [if_neg heq] at hsome
        have h3 := Option.some.inj hsome
        rw [Prod.mk.injEq, Prod.mk.injEq] at h3
        obtain ⟨rfl, rfl, rfl⟩ := h3
        exact ⟨rfl, rfl, heq⟩
    · rintro ⟨rfl, rfl, hne2⟩
      simp only [changesFor]
      apply List.mem_filterMap.mpr
      refine ⟨f, ?_, ?_⟩
      · rw [List.mem_dedup]
        by_contra hf
        rw [List.mem_append] at hf
        push_neg at hf
        have h1 : dGet (stripId oe) f = none :=
          dGet_eq_none_of_not_mem_keys hf.1
        have h2 : dGet (stripId ne) f = none :=
          dGet_eq_none_of_not_mem_keys hf.2
        exact hne2 (by simp [fieldVal, h1, h2])
      · rw [if_neg hne2]

/-- Witness for claim C4 at spec scenario 3. -/
theorem modified_changes_exact_witness :
    dGet (buildMap [exOldRec]) "1|X" = some exOldRec ∧
    dGet (buildMap [exNewRec]) "1|X" = some exNewRec ∧
    entryEqv (stripId exOldRec) (stripId exNewRec) = false ∧
    (∃ ch : List (String × String × String),
      ModEntry.mk "1|X" ch ∈ (compute_diff [exOldRec] [exNewRec]).modified ∧
      ∀ f ov nv : String,
        ((f, ov, nv) ∈ ch ↔
          ov = fieldVal (stripId exOldRec) f ∧
            nv = fieldVal (stripId exNewRec) f ∧
            fieldVal (stripId exOldRec) f ≠ fieldVal (stripId exNewRec) f)) :=
  ⟨by decide, by decide, by decide,
    modified_changes_exact [exOldRec] [exNewRec] "1|X" exOldRec exNewRec
      (by decide) (by decide) (by decide)⟩

/-- Claim C5: diffing a record set against itself yields empty added,
removed and modified sequences. -/
theorem diff_self_empty (A : List Entry) :
    (compute_diff A A).added = [] ∧ (compute_diff A A).removed = [] ∧
      (compute_diff A A).modified = [] := by
  have hfil : ((buildMap A).map Prod.fst).filter
      (fun k => decide (¬ k ∈ (buildMap A).map Prod.fst)) = [] := by
    rw [List.filter_eq_nil_iff]
    intro a ha
    simp [ha]
  refine ⟨?_, ?_, ?_⟩
  · rw [compute_diff_added, hfil]
    rfl
  · rw [compute_diff_removed, hfil]
    rfl
  · rw [compute_diff_modified, List.filterMap_eq_nil_iff]
    intro k hk
    rw [mem_sortStr] at hk
    obtain ⟨e, he⟩ := exists_dGet_of_mem_keys (List.mem_filter.mp hk).1
    simp [modFor, he, entryEqv_refl]

/-- Claim C6: the added sequence of `compute_diff A B` is the removed
sequence of `compute_diff B A`, and vice versa. -/
theorem diff_antisymmetry (A B : List Entry) :
    (compute_diff A B).added = (compute_diff B A).removed ∧
    (compute_diff A B).removed = (compute_diff B A).added :=
  ⟨rfl, rfl⟩

/-- Claim C7: every record retained by the extractor has a non-empty
identity key. -/
theorem retained_id_nonempty (rows : List Row) (e : Entry)
    (he : e ∈ parse_xlsx rows) : entryId e ≠ "" := by
  cases rows with
  | nil => simp [parse_xlsx] at he
  | cons r rs =>
    have he2 : e ∈ (dataRowsOf (r :: rs)).filterMap
        (mkEntry (headersOf (r :: rs))) := he
    obtain ⟨row, _, hmk⟩ := List.mem_filterMap.mp he2
    simp only [mkEntry] at hmk
    by_cases hb : rowBlank row = true
    · rw [if_pos hb] at hmk
      exact Option.noConfusion hmk
    · rw [if_neg hb] at hmk
      by_cases hk : entryIdKey (buildEntry (headersOf (r :: rs)) row) = ""
      · rw [if_pos hk] at hmk
        exact Option.noConfusion hmk
      · rw [if_neg hk] at hmk
        have he3 := Option.some.inj hmk
        rw [← he3]
        simpa [entryId, fieldVal, dGet_dInsert_self] using hk

/-- Witness for claim C7 at the two-row example document. -/
theorem retained_id_nonempty_witness :
    c1Rec1 ∈ parse_xlsx c1Rows ∧ entryId c1Rec1 ≠ "" :=
  ⟨by decide, retained_id_nonempty c1Rows c1Rec1 (by decide)⟩

/-- Claim C8: the header locator returns the index of the first row with at
least 3 non-empty cells, defaulting to 0 when no such row exists, and an
empty document extracts to an empty record set. -/
theorem header_locator_first_index :
    (∀ rows : List Row,
        headerIdx rows = (firstIdxWith headerRowPred rows).getD 0) ∧
    (∀ (rows : List Row) (i : Nat),
        firstIdxWith headerRowPred rows = some i →
          i < rows.length ∧ headerRowPred (rows.getD i []) = true ∧
            ∀ j, j < i → headerRowPred (rows.getD j []) = false) ∧
    (∀ rows : List Row,
        firstIdxWith headerRowPred rows = none → headerIdx rows = 0) ∧
    parse_xlsx [] = [] := by
  refine ⟨?_, firstIdxWith_spec, ?_, rfl⟩
  · intro rows
    rw [headerIdx, headerIdxFrom_eq rows 0]
    cases firstIdxWith headerRowPred rows <;> simp
  · intro rows h
    rw [headerIdx, headerIdxFrom_eq rows 0, h]

/-- Witness for claim C8 at a document with a title row before the header. -/
theorem header_locator_first_index_witness :
    firstIdxWith headerRowPred hdrRows = some 1 ∧
    (1 < hdrRows.length ∧ headerRowPred (hdrRows.getD 1 []) = true ∧
      ∀ j, j < 1 → headerRowPred (hdrRows.getD j []) = false) :=
  ⟨by decide, header_locator_first_index.2.1 hdrRows 1 (by decide)⟩

/-- Claim C9: when several input records carry the same non-empty identity
key, the key→record map used by the diff engine holds the record occurring
last in input order. -/
theorem duplicate_id_last_wins (entries : List Entry) (k : String)
    (hk : k ≠ "") :
    dGet (buildMap entries) k = lastWithKey entries k := by
  unfold buildMap lastWithKey
  rw [dGet_foldl_buildStep hk entries []]
  cases (entries.filter (fun e => decide (dGet e "_id" = some k))).getLast? <;>
    simp [optOr, dGet]

/-- Witness for claim C9 at two records sharing the key "k". -/
theorem duplicate_id_last_wins_witness :
    ("k" : String) ≠ "" ∧
    dGet (buildMap dupIdEntries) "k" = lastWithKey dupIdEntries "k" :=
  ⟨by decide, duplicate_id_last_wins dupIdEntries "k" (by decide)⟩

/-- Claim C10: an input record whose `_id` field is absent or empty has no
effect on the diff: removing it from either side leaves the result
unchanged, so it contributes to none of added, removed or modified. -/
theorem blank_id_ignored (A1 A2 B : List Entry) (e : Entry)
    (he : dGet e "_id" = none ∨ dGet e "_id" = some "") :
    compute_diff (A1 ++ e :: A2) B = compute_diff (A1 ++ A2) B ∧
    compute_diff B (A1 ++ e :: A2) = compute_diff B (A1 ++ A2) := by
  have hstep : ∀ m, buildStep m e = m := by
    intro m
    rcases he with h | h <;> simp [buildStep, h]
  have hbm : buildMap (A1 ++ e :: A2) = buildMap (A1 ++ A2) := by
    unfold buildMap
    rw [List.foldl_append, List.foldl_append, List.foldl_cons, hstep]
  constructor <;> simp only [compute_diff, hbm]

/-- Witness for claim C10 at a record with no `_id` field. -/
theorem blank_id_ignored_witness :
    (dGet noIdEntry "_id" = none ∨ dGet noIdEntry "_id" = some "") ∧
    (compute_diff ([] ++ noIdEntry :: [exOldRec]) [exOldRec] =
        compute_diff ([] ++ [exOldRec]) [exOldRec] ∧
      compute_diff [exOldRec] ([] ++ noIdEntry :: [exOldRec]) =
        compute_diff [exOldRec] ([] ++ [exOldRec])) :=
  ⟨Or.inl (by decide),
    blank_id_ignored [] [exOldRec] [exOldRec] noIdEntry (Or.inl (by decide))⟩

end SanctionsMonitor
